import Mathlib

/-!
Verification of the LogoGen orchestration service against its
natural-language specification.

The JavaScript services are shallowly embedded as pure Lean functions.
Network calls are represented by passing the upstream outcome as an
explicit argument; file-system state is represented by association
lists; JavaScript strings are modelled as Lean strings (the inputs of
interest are ASCII, where JS UTF-16 length, toLowerCase and trim agree
with the codepoint-level models below).
-/

namespace LogoGen

/-! ## JavaScript string primitives

Models of the JS string operations used by the services:
whitespace (the regex class backslash-s restricted to ASCII),
String.prototype.trim, String.prototype.toLowerCase,
String.prototype.includes and String.prototype.endsWith. -/

/-- Characters matched by the JS whitespace class (ASCII part). -/
def jsWs (c : Char) : Bool :=
  c == ' ' || c == '\t' || c == '\n' || c == '\r' || c == '\x0b' || c == '\x0c'

/-- Model of JS String.prototype.trim: drop whitespace from both ends. -/
def jsTrim (s : String) : String :=
  String.mk (((s.data.dropWhile jsWs).reverse.dropWhile jsWs).reverse)

/-- ASCII lower-casing of one character. -/
def jsLowerChar (c : Char) : Char :=
  if 'A' ≤ c && c ≤ 'Z' then Char.ofNat (c.toNat + 32) else c

/-- Model of JS String.prototype.toLowerCase on ASCII strings. -/
def jsToLower (s : String) : String :=
  String.mk (s.data.map jsLowerChar)

/-- Check that the second list starts with the first. -/
def startsWithL : List Char → List Char → Bool
  | [], _ => true
  | _ :: _, [] => false
  | p :: ps, c :: cs => p == c && startsWithL ps cs

/-- Check that the first list occurs contiguously inside the second. -/
def occursIn (pat : List Char) : List Char → Bool
  | [] => pat.isEmpty
  | c :: cs => startsWithL pat (c :: cs) || occursIn pat cs

/-- Model of JS String.prototype.includes: substring containment. -/
def jsIncludes (s pat : String) : Bool :=
  occursIn pat.data s.data

/-- Model of JS String.prototype.endsWith. -/
def jsEndsWith (s suf : String) : Bool :=
  startsWithL suf.data.reverse s.data.reverse

/-- JS string length (UTF-16 units; equals character count on ASCII). -/
def jsLength (s : String) : Nat :=
  s.data.length

/-! ## Prompt enhancement service
(src/services/promptEnhancementService.js) -/

/-- Configuration slice consumed by the enhancement service: the
ENABLE_PROMPT_ENHANCEMENT flag and the resolved LLM API key
(none models a null key; the empty string is falsy in JS). -/
structure LLMCfg where
  enabled : Bool
  apiKey : Option String
deriving DecidableEq

/-- The key is usable when it is present and non-empty
(the JS guard is the falsiness test on this.llmConfig.apiKey). -/
def hasUsableKey (cfg : LLMCfg) : Bool :=
  match cfg.apiKey with
  | some k => !(k == "")
  | none => false

/-- Outcome of the text-completion HTTP call: a network/HTTP error, or a
response whose first choice text is absent (none) or present. -/
inductive LLMCallResult where
  | netError
  | response (text : Option String)
deriving DecidableEq

/-- The fixed list of known failure phrases checked by the quality gate
(promptEnhancementService.js, failurePatterns). -/
def failurePhrases : List String :=
  ["enhance this design prompt", "enhanced version:", "here is the enhanced",
   "i cannot", "i can\x27t", "as an ai"]

/-- Quality gate isValidEnhancedPrompt: reject empty or short results,
results case-insensitively identical to the original, and results
containing a known failure phrase. -/
def isValidEnhancedPrompt (enhanced original : String) : Bool :=
  if enhanced == "" then false
  else if jsLength enhanced < 10 then false
  else if jsToLower enhanced == jsToLower original then false
  else !(failurePhrases.any (fun pat => jsIncludes (jsToLower enhanced) pat))

/-- Embedding of enhancePrompt. The template substitution only shapes the
outgoing request, so the call outcome is passed directly; the imageType
argument selects the template in the source and does not affect which
value is returned. -/
def enhancePrompt (cfg : LLMCfg) (call : LLMCallResult)
    (originalPrompt _imageType : String) : String :=
  if !cfg.enabled then originalPrompt
  else if !(hasUsableKey cfg) then originalPrompt
  else
    match call with
    | .netError => originalPrompt
    | .response none => originalPrompt
    | .response (some text) =>
      if text == "" then originalPrompt
      else
        let enhanced := jsTrim text
        if isValidEnhancedPrompt enhanced originalPrompt then enhanced
        else originalPrompt

/-- Rejection condition exactly as the words of claim C2 put it, applied
to the raw completion text (for comparison with the source behaviour). -/
def claimRejectsRaw (c p : String) : Bool :=
  (c == "") || (jsLength c < 10) || (jsToLower c == jsToLower p)
    || failurePhrases.any (fun pat => jsIncludes (jsToLower c) pat)

/-! ## Image generation service (generateImage) -/

/-- User-facing message for HTTP 401. -/
def err401 : String := "Invalid API key. Please check your API_KEY in the .env file."

/-- User-facing message for HTTP 429. -/
def err429 : String := "Rate limit exceeded. Please try again later."

/-- User-facing message for HTTP 403. -/
def err403 : String := "Access forbidden. Please check your API permissions."

/-- Generic generation failure with upstream detail appended. -/
def genericGenErr (detail : String) : String :=
  "Failed to generate image: " ++ detail

/-- Outcome of the image-generation HTTP call: a response whose first
result URL may be absent, or a failure carrying the optional HTTP status,
the optional upstream error detail, and the transport error message. -/
inductive UpstreamResult where
  | response (firstUrl : Option String)
  | failure (status : Option Nat) (upstreamDetail : Option String) (message : String)
deriving DecidableEq

/-- Embedding of generateImage. A malformed success response raises an
error inside the try block, which the catch re-wraps as the generic
message (its error has no HTTP response attached). -/
def generateImage : UpstreamResult → Except String String
  | .response (some url) => .ok url
  | .response none =>
      .error (genericGenErr "Invalid response format from image generation API")
  | .failure status detail msg =>
      if status == some 401 then .error err401
      else if status == some 429 then .error err429
      else if status == some 403 then .error err403
      else .error (genericGenErr (detail.getD msg))

/-! ## File service: safe filename (generateSafeFilename) -/

/-- Characters kept by the first regex replace: alphanumerics and
whitespace (the class strips everything outside a-zA-Z0-9 and
backslash-s). -/
def keepChar (c : Char) : Bool :=
  ('a' ≤ c && c ≤ 'z') || ('A' ≤ c && c ≤ 'Z') || ('0' ≤ c && c ≤ '9') || jsWs c

/-- Replace each maximal whitespace run by one underscore: the flag
records whether the previous character was part of a whitespace run. -/
def collapseRuns : Bool → List Char → List Char
  | _, [] => []
  | prevWs, c :: cs =>
    if jsWs c then
      if prevWs then collapseRuns true cs
      else '_' :: collapseRuns true cs
    else c :: collapseRuns false cs

/-- The sanitized prompt slug: strip, collapse, truncate to 50. -/
def safeSlug (prompt : String) : String :=
  String.mk ((collapseRuns false (prompt.data.filter keepChar)).take 50)

/-- Embedding of generateSafeFilename. -/
def generateSafeFilename (prompt imageType : String) (timestamp : Nat)
    (isOriginal : Bool) : String :=
  imageType ++ "_" ++ safeSlug prompt ++ "_" ++ toString timestamp
    ++ (if isOriginal then "_original" else "") ++ ".png"

/-- The slug pipeline exactly as the words of claim C4 put it: strip every
character outside alphanumerics and space, then collapse whitespace runs,
then truncate. -/
def claimSlug (prompt : String) : String :=
  String.mk ((collapseRuns false
    (prompt.data.filter (fun c =>
      ('a' ≤ c && c ≤ 'z') || ('A' ≤ c && c ≤ 'Z')
        || ('0' ≤ c && c ≤ '9') || c == ' '))).take 50)

/-- The filename builder exactly as claim C4 describes it. -/
def claimFilename (prompt imageType : String) (timestamp : Nat)
    (isOriginal : Bool) : String :=
  imageType ++ "_" ++ claimSlug prompt ++ "_" ++ toString timestamp
    ++ (if isOriginal then "_original" else "") ++ ".png"

/-- Dropping a prefix by a predicate never lengthens a list. -/
theorem dropWhile_length_le (p : Char → Bool) (l : List Char) :
    (l.dropWhile p).length ≤ l.length := by
  induction l with
  | nil => simp [List.dropWhile]
  | cons a l ih =>
    simp only [List.dropWhile]
    split
    · exact Nat.le_trans ih (Nat.le_succ _)
    · simp

/-- Run-collapsing phrased independently, by explicit maximal-run
skipping, used to restate the amended claim C4. -/
def collapseRunsSpec (l : List Char) : List Char :=
  match l with
  | [] => []
  | c :: cs =>
    if jsWs c then '_' :: collapseRunsSpec (cs.dropWhile jsWs)
    else c :: collapseRunsSpec cs
termination_by l.length
decreasing_by
  all_goals simp only [List.length_cons]
  · exact Nat.lt_succ_of_le (dropWhile_length_le jsWs cs)
  · exact Nat.lt_succ_self cs.length

/-! ## Image processing service
(src/services/imageProcessingService.js) -/

/-- Output pixel sizes for the two artifact kinds. -/
structure ImgCfg where
  logoSize : Nat
  iconSize : Nat
deriving DecidableEq

/-- Embedding of getImageDimensions: the metadata read either yields a
width/height pair or fails (none); on failure the configured logo size is
returned for both axes — the function receives no image type. -/
def getImageDimensions (cfg : ImgCfg) (meta : Option (Nat × Nat)) : Nat × Nat :=
  match meta with
  | some d => d
  | none => (cfg.logoSize, cfg.logoSize)

/-- Artifact metadata returned by the processing pipeline. -/
structure ProcessedImage where
  filename : String
  path : String
  originalFilename : String
  originalPath : String
  size : Nat
  dimensions : Nat × Nat
deriving DecidableEq

/-- Embedding of downloadAndProcessImage, restricted to the metadata it
returns: filenames from generateSafeFilename, public paths, the processed
byte size, and the dimensions read back by getImageDimensions (the
introspection outcome is the explicit argument). -/
def downloadAndProcessImage (cfg : ImgCfg) (imageType originalPrompt : String)
    (timestamp processedSize : Nat) (introspect : Option (Nat × Nat)) :
    ProcessedImage :=
  let originalFilename := generateSafeFilename originalPrompt imageType timestamp true
  let processedFilename := generateSafeFilename originalPrompt imageType timestamp false
  { filename := processedFilename
    path := "/generated/" ++ processedFilename
    originalFilename := originalFilename
    originalPath := "/generated/original/" ++ originalFilename
    size := processedSize
    dimensions := getImageDimensions cfg introspect }

/-! ## File service: listing generated images (listGeneratedImages) -/

/-- One entry of the processed-artifact directory as stat reports it. -/
structure DirEntry where
  name : String
  size : Nat
  created : Nat
  modified : Nat
deriving DecidableEq

/-- Recognized image extensions. -/
def isImageFilename (n : String) : Bool :=
  jsEndsWith n ".png" || jsEndsWith n ".jpg" || jsEndsWith n ".jpeg"

/-- The per-file metadata object built for the response. -/
structure ImageInfo where
  filename : String
  path : String
  size : Nat
  created : Nat
  modified : Nat
deriving DecidableEq

/-- Build the response object of one directory entry. -/
def toImageInfo (e : DirEntry) : ImageInfo :=
  { filename := e.name
    path := "/generated/" ++ e.name
    size := e.size
    created := e.created
    modified := e.modified }

/-- Insert into a list kept in descending creation-time order. -/
def insertByCreated (x : ImageInfo) : List ImageInfo → List ImageInfo
  | [] => [x]
  | y :: ys =>
    if y.created ≤ x.created then x :: y :: ys
    else y :: insertByCreated x ys

/-- Sort newest-first by creation time (the JS comparator b minus a). -/
def sortByCreatedDesc (l : List ImageInfo) : List ImageInfo :=
  l.foldr insertByCreated []

/-- Embedding of listGeneratedImages: filter the directory entries by
extension, map each to its metadata, and sort by creation descending. -/
def listGeneratedImages (dir : List DirEntry) : List ImageInfo :=
  sortByCreatedDesc ((dir.filter (fun e => isImageFilename e.name)).map toImageInfo)

/-- Writing a file: overwrite the entry with the same name, else add it.
Models fs.writeFile into the processed directory. -/
def saveEntry : List DirEntry → DirEntry → List DirEntry
  | [], e => [e]
  | x :: xs, e => if x.name == e.name then e :: xs else x :: saveEntry xs e

/-- The original-artifact subdirectory as readdir reports it inside the
processed directory: a name with no image extension. -/
def originalSubdirEntry : DirEntry := ⟨"original", 0, 0, 0⟩

/-! ## Insertion-ordered string-keyed map (JS Map semantics)

Shared by the record-store cache and the on-disk record directory:
set replaces in place (keeping insertion order) or appends; the first
key in iteration order is the oldest-inserted one. -/

/-- Keys of an association list in insertion order. -/
def mapKeys {V : Type} (l : List (String × V)) : List String :=
  l.map Prod.fst

/-- Lookup by key (first occurrence). -/
def lookupKey {V : Type} : List (String × V) → String → Option V
  | [], _ => none
  | e :: es, k => if e.1 == k then some e.2 else lookupKey es k

/-- JS Map.set: replace the existing entry in place, else append. -/
def setEntry {V : Type} : List (String × V) → String → V → List (String × V)
  | [], k, v => [(k, v)]
  | e :: es, k, v => if e.1 == k then (k, v) :: es else e :: setEntry es k v

/-- JS Map.delete: drop the entry with the given key. -/
def delEntry {V : Type} (l : List (String × V)) (k : String) :
    List (String × V) :=
  l.filter (fun e => !(e.1 == k))

/-! ## Record-store cache (mockDatabase.js updateCache / findById) -/

/-- Embedding of updateCache: at capacity, delete the first (oldest) key
before setting; deleting the first key of an empty map is a no-op. -/
def updateCache {V : Type} (max : Nat) (c : List (String × V))
    (k : String) (v : V) : List (String × V) :=
  if max ≤ c.length then
    match c.head? with
    | some e => setEntry (delEntry c e.1) k v
    | none => setEntry c k v
  else setEntry c k v

/-- Embedding of findById restricted to its cache effect: a cache hit
returns the cached record and leaves the cache untouched; a miss reads
the file (the explicit fileRec argument) and caches it when found. -/
def findByIdCache {V : Type} (max : Nat) (c : List (String × V))
    (k : String) (fileRec : Option V) : List (String × V) × Option V :=
  match lookupKey c k with
  | some v => (c, some v)
  | none =>
    match fileRec with
    | some r => (updateCache max c k r, some r)
    | none => (c, none)

/-- The record-store operations that touch the cache. Reads and updates
carry the on-disk record found on a cache miss as an explicit argument;
updates carry the merged record that is written back. -/
inductive CacheOp (V : Type) where
  | createRec (k : String) (v : V)
  | readRec (k : String) (fileRec : Option V)
  | updateRec (k : String) (fileRec : Option V) (merged : V)
  | deleteRec (k : String)
deriving DecidableEq

/-- One record-store operation acting on the cache, following create /
findById / update / delete of mockDatabase.js. -/
def cacheStep {V : Type} (max : Nat) (c : List (String × V)) :
    CacheOp V → List (String × V)
  | .createRec k v => updateCache max c k v
  | .readRec k fileRec => (findByIdCache max c k fileRec).1
  | .updateRec k fileRec merged =>
    let p := findByIdCache max c k fileRec
    match p.2 with
    | none => p.1
    | some _ => updateCache max p.1 k merged
  | .deleteRec k => delEntry c k

/-- Run a sequence of record-store operations from the empty cache. -/
def runCacheOps {V : Type} (max : Nat) (ops : List (CacheOp V)) :
    List (String × V) :=
  ops.foldl (cacheStep max) []

/-! ## Record-store update (mockDatabase.js update) -/

/-- A stored record: a JSON object as an ordered field map. -/
abbrev RecordObj := List (String × String)

/-- Override one field of the base object from the update object if the
update object names it. -/
def overrideEntry (upds : RecordObj) (e : String × String) : String × String :=
  match lookupKey upds e.1 with
  | some v => (e.1, v)
  | none => e

/-- JS object spread of two objects: keys of the base in their order with
overridden values, then new keys of the update object in its order. -/
def spreadObj (base upds : RecordObj) : RecordObj :=
  base.map (overrideEntry upds)
    ++ upds.filter (fun e => (lookupKey base e.1).isNone)

/-- The model directory: one record file per id. -/
abbrev Store := List (String × RecordObj)

/-- Embedding of update: read the existing record (error when absent,
touching nothing), merge existing with updates, refresh updatedAt, and
write the file back. The cache effect is covered by the cache model. -/
def mockUpdate (s : Store) (id : String) (upds : RecordObj) (now : String) :
    Store × Except String RecordObj :=
  match lookupKey s id with
  | none => (s, .error ("record with id " ++ id ++ " not found"))
  | some existing =>
    let updated := spreadObj (spreadObj existing upds) [("updatedAt", now)]
    (setEntry s id updated, .ok updated)

/-! ## HTTP generate route (routes file, /api/generate) with the
transaction logging guard of databaseService.logImageGeneration -/

/-- Persistence-logging configuration: the master switch and the
transaction sub-toggle. -/
structure DbCfg where
  enabled : Bool
  logTransactions : Bool
deriving DecidableEq

/-- Transaction logging happens only when the service is enabled and the
transaction toggle is on (the guard of logImageGeneration). -/
def loggingOn (cfg : DbCfg) : Bool :=
  cfg.enabled && cfg.logTransactions

/-- The persisted transaction record (the fields the claims mention). -/
structure TxRecord where
  originalPrompt : String
  imageType : String
  success : Bool
  errorMessage : Option String
deriving DecidableEq

/-- Denormalized per-session counters. -/
structure SessionStats where
  totalRequests : Nat
  successfulGenerations : Nat
  failedGenerations : Nat
deriving DecidableEq

/-- Persisted server state: the transaction log and the session
aggregates keyed by caller address and user agent. -/
structure SrvState where
  txs : List TxRecord
  sessions : List (String × SessionStats)
deriving DecidableEq

/-- JSON response envelope (status code, success flag, error message). -/
structure HttpResp where
  status : Nat
  success : Bool
  error : Option String
deriving DecidableEq

/-- Outcome of the enhancement/generation/processing pipeline for one
request, abstracting the three upstream calls. -/
inductive PipeOutcome where
  | success
  | failure (msg : String)
deriving DecidableEq

/-- Request validation of the prompt: present, non-empty, and not
whitespace-only (the JS falsiness tests on prompt and prompt.trim()). -/
def promptOk (p : Option String) : Bool :=
  match p with
  | none => false
  | some s => !(s == "") && !(jsTrim s == "")

/-- Embedding of validateImageType. -/
def validType (t : String) : Bool :=
  t == "logo" || t == "icon"

/-- Update the session aggregate of one caller key: bump the request
counter and the success or failure counter. -/
def bumpSession (ss : List (String × SessionStats)) (key : String)
    (succ : Bool) : List (String × SessionStats) :=
  let cur := (lookupKey ss key).getD ⟨0, 0, 0⟩
  setEntry ss key
    { totalRequests := cur.totalRequests + 1
      successfulGenerations := cur.successfulGenerations + (if succ then 1 else 0)
      failedGenerations := cur.failedGenerations + (if succ then 0 else 1) }

/-- Record one generation attempt: guarded by the logging configuration,
append exactly one transaction record and update the session aggregate. -/
def logTx (cfg : DbCfg) (st : SrvState) (tx : TxRecord) (key : String)
    (succ : Bool) : SrvState :=
  if loggingOn cfg then
    { txs := st.txs ++ [tx], sessions := bumpSession st.sessions key succ }
  else st

/-- Embedding of the /api/generate handler: validate, then run the
pipeline; log one transaction on success and on failure; answer with the
JSON envelope. -/
def handleGenerate (cfg : DbCfg) (st : SrvState) (prompt : Option String)
    (imageType : String) (sessionKey : String) (outcome : PipeOutcome) :
    SrvState × HttpResp :=
  if !(promptOk prompt) then
    (st, ⟨400, false, some "Prompt is required"⟩)
  else if !(validType imageType) then
    (st, ⟨400, false, some "Image type must be either \"logo\" or \"icon\""⟩)
  else
    let p := jsTrim ((prompt).getD "")
    match outcome with
    | .success =>
      (logTx cfg st ⟨p, imageType, true, none⟩ sessionKey true,
       ⟨200, true, none⟩)
    | .failure msg =>
      (logTx cfg st ⟨p, imageType, false, some msg⟩ sessionKey false,
       ⟨500, false, some msg⟩)

/-- One incoming generate request together with its pipeline outcome. -/
structure GenReq where
  prompt : Option String
  imageType : String
  sessionKey : String
  outcome : PipeOutcome
deriving DecidableEq

/-- Serve a sequence of generate requests. -/
def runRequests (cfg : DbCfg) : List GenReq → SrvState → SrvState
  | [], st => st
  | r :: rs, st =>
    runRequests cfg rs
      (handleGenerate cfg st r.prompt r.imageType r.sessionKey r.outcome).1

/-! ## Theorems -/

/-- C1: enhance(p, k) returns p unchanged and raises no error whenever
enhancement is disabled or no usable credential is configured; and every
network/HTTP error of the completion call is caught and p is returned
unchanged rather than the failure propagating. -/
theorem C1_enhancement_fallback (cfg : LLMCfg) (call : LLMCallResult)
    (p k : String) :
    ((cfg.enabled = false ∨ hasUsableKey cfg = false) →
      enhancePrompt cfg call p k = p)
    ∧ (call = .netError → enhancePrompt cfg call p k = p) := by
  constructor
  · intro h
    rcases h with h | h <;> simp [enhancePrompt, h]
  · intro h
    subst h
    by_cases he : cfg.enabled <;> by_cases hk : hasUsableKey cfg = true <;>
      simp [enhancePrompt, he, hk]

/-- Witness for C1 at concrete inputs: a disabled configuration and a
network error both fall back to the original prompt. -/
theorem C1_enhancement_fallback_witness :
    enhancePrompt ⟨false, some "key"⟩ (.response (some "a long enhanced prompt"))
      "cat logo" "logo" = "cat logo"
    ∧ enhancePrompt ⟨true, some "key"⟩ .netError "cat logo" "logo" = "cat logo" :=
  ⟨(C1_enhancement_fallback ⟨false, some "key"⟩
      (.response (some "a long enhanced prompt")) "cat logo" "logo").1
      (Or.inl rfl),
   (C1_enhancement_fallback ⟨true, some "key"⟩ .netError
      "cat logo" "logo").2 rfl⟩

/-- Helper for C3: the generic failure message starts with the letter F,
hence differs from each of the three status-specific messages. -/
theorem genericGenErr_head (d : String) :
    (genericGenErr d).data.head? = some 'F' := by
  obtain ⟨l⟩ := d
  rfl

/-- C3: each failed image-generation call raises the status-specific
error: 401 the invalid-credential message, 429 the retry-later message,
403 the forbidden message, and everything else the generic message with
the upstream detail appended when available; the four messages are
pairwise distinct. Retrying is not represented: generateImage consumes
exactly one upstream outcome. -/
theorem C3_generation_error_taxonomy (detail : Option String) (msg : String) :
    generateImage (.failure (some 401) detail msg) = .error err401
    ∧ generateImage (.failure (some 429) detail msg) = .error err429
    ∧ generateImage (.failure (some 403) detail msg) = .error err403
    ∧ (∀ status : Option Nat, status ≠ some 401 → status ≠ some 429 →
        status ≠ some 403 →
        generateImage (.failure status detail msg)
          = .error (genericGenErr (detail.getD msg)))
    ∧ err401 ≠ err429 ∧ err401 ≠ err403 ∧ err429 ≠ err403
    ∧ (∀ d, genericGenErr d ≠ err401 ∧ genericGenErr d ≠ err429
        ∧ genericGenErr d ≠ err403) := by
  refine ⟨rfl, rfl, rfl, ?_, by decide, by decide, by decide, ?_⟩
  · intro status h1 h2 h3
    match status with
    | none => rfl
    | some n =>
      have e1 : ((some n : Option Nat) == some 401) = false := by
        simpa using fun h => h1 (by simp [h])
      have e2 : ((some n : Option Nat) == some 429) = false := by
        simpa using fun h => h2 (by simp [h])
      have e3 : ((some n : Option Nat) == some 403) = false := by
        simpa using fun h => h3 (by simp [h])
      simp [generateImage, e1, e2, e3]
  · intro d
    have hd := genericGenErr_head d
    refine ⟨?_, ?_, ?_⟩ <;> intro h <;> rw [h] at hd <;> exact absurd hd (by decide)

/-- Witness for C3: a 500 failure with an upstream detail produces the
generic message carrying the detail. -/
theorem C3_generation_error_taxonomy_witness :
    generateImage (.failure (some 500) (some "quota exceeded") "boom")
      = .error (genericGenErr "quota exceeded") := by
  have h := (C3_generation_error_taxonomy (some "quota exceeded") "boom").2.2.2.1
    (some 500) (by decide) (by decide) (by decide)
  simpa using h

/-- Counterexample to C4: the source keeps every whitespace character
(the regex class strips only what is neither alphanumeric nor
whitespace), while the claim strips everything outside alphanumerics and
the space character; a tab separates them. -/
theorem C4_filename_counterexample :
    generateSafeFilename "a\tb" "logo" 1 false = "logo_a_b_1.png"
    ∧ claimFilename "a\tb" "logo" 1 false = "logo_ab_1.png"
    ∧ generateSafeFilename "a\tb" "logo" 1 false
        ≠ claimFilename "a\tb" "logo" 1 false := by
  decide

/-- Unfolding lemma for the nil case of collapseRunsSpec. -/
theorem collapseRunsSpec_nil : collapseRunsSpec [] = [] := by
  rw [collapseRunsSpec]

/-- Unfolding lemma for the cons case of collapseRunsSpec. -/
theorem collapseRunsSpec_cons (c : Char) (cs : List Char) :
    collapseRunsSpec (c :: cs)
      = if jsWs c then '_' :: collapseRunsSpec (cs.dropWhile jsWs)
        else c :: collapseRunsSpec cs := by
  rw [collapseRunsSpec]

/-- Helper for C4: the accumulator formulation of run collapsing agrees
with the explicit maximal-run formulation. -/
theorem collapseRuns_eq_spec (l : List Char) :
    collapseRuns false l = collapseRunsSpec l
    ∧ collapseRuns true l = collapseRunsSpec (l.dropWhile jsWs) := by
  induction l with
  | nil => exact ⟨collapseRunsSpec_nil.symm, collapseRunsSpec_nil.symm⟩
  | cons c cs ih =>
    by_cases h : jsWs c
    · constructor
      · rw [collapseRunsSpec_cons]
        simp [collapseRuns, h, ih.2]
      · rw [List.dropWhile_cons_of_pos h]
        simp [collapseRuns, h, ih.2]
    · constructor
      · rw [collapseRunsSpec_cons]
        simp [collapseRuns, h, ih.1]
      · rw [List.dropWhile_cons_of_neg (by simpa using h), collapseRunsSpec_cons]
        simp [collapseRuns, h, ih.1]

/-- C4 as amended: the filename builder strips every character that is
neither alphanumeric nor whitespace, collapses each whitespace run
(spaces, tabs, newlines alike) to one underscore, truncates the slug to
50 characters, and composes kind, slug, timestamp, optional original
marker and the png extension; it is deterministic, and the documented
example evaluates as stated. -/
theorem C4_filename_amended (p k : String) (t : Nat) (o : Bool) :
    generateSafeFilename p k t o
      = k ++ "_" ++ String.mk ((collapseRunsSpec (p.data.filter keepChar)).take 50)
        ++ "_" ++ toString t ++ (if o then "_original" else "") ++ ".png"
    ∧ generateSafeFilename "Modern Tech! Co." "logo" 1700000000000 false
        = "logo_Modern_Tech_Co_1700000000000.png"
    ∧ (∀ p2 k2 t2 o2, p = p2 → k = k2 → t = t2 → o = o2 →
        generateSafeFilename p k t o = generateSafeFilename p2 k2 t2 o2) := by
  refine ⟨?_, by decide, ?_⟩
  · rw [generateSafeFilename, safeSlug, (collapseRuns_eq_spec (p.data.filter keepChar)).1]
  · intro p2 k2 t2 o2 h1 h2 h3 h4
    rw [h1, h2, h3, h4]

/-- Counterexample to C7: when dimension introspection fails on an icon
request, the pipeline reports the configured logo size, not the
configured icon size (with the default sizes, 1024 rather than 64). -/
theorem C7_dimensions_counterexample :
    (downloadAndProcessImage ⟨1024, 64⟩ "icon" "blue circle" 1 5 none).dimensions
      = (1024, 1024)
    ∧ ((1024, 1024) : Nat × Nat) ≠ ((64, 64) : Nat × Nat) := by
  decide

/-- C7 as amended: whenever reading the dimensions back fails, the
pipeline returns the configured logo size on both axes regardless of the
requested kind (getImageDimensions receives no kind), and a successful
read is passed through unchanged. -/
theorem C7_dimensions_amended (cfg : ImgCfg) (t p : String) (ts sz : Nat) :
    (downloadAndProcessImage cfg t p ts sz none).dimensions
      = (cfg.logoSize, cfg.logoSize)
    ∧ ∀ w h, (downloadAndProcessImage cfg t p ts sz (some (w, h))).dimensions
      = (w, h) := by
  exact ⟨rfl, fun w h => rfl⟩

/-- Helper for C2: the source quality gate accepts exactly when the
four rejection conditions all fail on its input. -/
theorem isValid_eq_not_reject (e p : String) :
    isValidEnhancedPrompt e p = !(claimRejectsRaw e p) := by
  by_cases h2 : jsLength e < 10 <;>
    cases h1 : (e == "") <;>
      cases h3 : (jsToLower e == jsToLower p) <;>
        simp [isValidEnhancedPrompt, claimRejectsRaw, h1, h2, h3]

/-- Counterexample to C2: the gate conditions are evaluated on the
trimmed completion, not the raw one. The raw completion of ten
characters "abcdefgh  " meets none of the claimed rejection conditions,
so the claim demands the trimmed completion "abcdefgh" be returned, but
the code rejects it (the trimmed text is under 10 characters) and falls
back to the original prompt "zz". -/
theorem C2_quality_gate_counterexample :
    claimRejectsRaw "abcdefgh  " "zz" = false
    ∧ enhancePrompt ⟨true, some "key"⟩ (.response (some "abcdefgh  "))
        "zz" "logo" = "zz"
    ∧ jsTrim "abcdefgh  " = "abcdefgh"
    ∧ ("zz" : String) ≠ "abcdefgh" := by
  decide

/-- C2 as amended: with enhancement enabled and a usable key, a
completion call returning raw text c yields the original prompt exactly
when the trimmed completion is empty, under 10 characters,
case-insensitively identical to the original, or contains a known
failure phrase; otherwise the trimmed completion is returned. -/
theorem C2_quality_gate_amended (cfg : LLMCfg) (c p k : String)
    (he : cfg.enabled = true) (hk : hasUsableKey cfg = true) :
    enhancePrompt cfg (.response (some c)) p k
      = (if claimRejectsRaw (jsTrim c) p then p else jsTrim c) := by
  by_cases hc : (c == "") = true
  · have hc2 : c = "" := by simpa using hc
    subst hc2
    rw [show jsTrim "" = "" from rfl]
    have h1 : claimRejectsRaw "" p = true := by simp [claimRejectsRaw]
    simp [enhancePrompt, he, hk, h1]
  · have hcf : (c == "") = false := by simpa using hc
    simp only [enhancePrompt, he, hk, hcf, isValid_eq_not_reject,
      Bool.not_true, Bool.false_eq_true, if_false]
    cases hr : claimRejectsRaw (jsTrim c) p <;> simp [hr]

/-- Witness for C2 as amended: an acceptable completion comes back
trimmed. -/
theorem C2_quality_gate_amended_witness :
    enhancePrompt ⟨true, some "key"⟩ (.response (some " minimalist fox icon "))
      "fox" "icon" = "minimalist fox icon" := by
  have h := C2_quality_gate_amended ⟨true, some "key"⟩ " minimalist fox icon "
    "fox" "icon" rfl rfl
  rw [h]
  decide

/-- C6: a generate request with a missing, empty or whitespace-only
prompt, or a kind outside the two enumerated kinds, is answered with an
HTTP 400 failure envelope; the pipeline outcome is never consulted
(enhancement, generation and processing are not invoked) and the
persisted state — in particular the transaction log — is untouched. -/
theorem C6_validation_rejects (cfg : DbCfg) (st : SrvState) (p : Option String)
    (t key : String) (o1 o2 : PipeOutcome)
    (h : promptOk p = false ∨ validType t = false) :
    handleGenerate cfg st p t key o1 = handleGenerate cfg st p t key o2
    ∧ (handleGenerate cfg st p t key o1).1 = st
    ∧ (handleGenerate cfg st p t key o1).2.status = 400
    ∧ (handleGenerate cfg st p t key o1).2.success = false
    ∧ ((handleGenerate cfg st p t key o1).2.error = some "Prompt is required"
       ∨ (handleGenerate cfg st p t key o1).2.error
          = some "Image type must be either \"logo\" or \"icon\"") := by
  rcases h with h | h
  · simp [handleGenerate, h]
  · by_cases hp : promptOk p <;> simp [handleGenerate, h, hp]

/-- Witness for C6: a request without a prompt is answered with 400. -/
theorem C6_validation_rejects_witness :
    (handleGenerate ⟨true, true⟩ ⟨[], []⟩ none "logo" "client" .success).2.status
      = 400 :=
  (C6_validation_rejects ⟨true, true⟩ ⟨[], []⟩ none "logo" "client" .success
    (.failure "x") (Or.inl rfl)).2.2.1

/-- Helper for C5: with logging off, a request never touches the
transaction log. -/
theorem handleGenerate_txs_of_not_logging (cfg : DbCfg) (st : SrvState)
    (p : Option String) (t key : String) (o : PipeOutcome)
    (hl : loggingOn cfg = false) :
    (handleGenerate cfg st p t key o).1.txs = st.txs := by
  by_cases hp : promptOk p <;> by_cases ht : validType t <;>
    cases o <;> simp [handleGenerate, logTx, hl, hp, ht]

/-- Helper for C5: with logging off, any amount of traffic leaves the
transaction log as it was. -/
theorem runRequests_txs_of_not_logging (cfg : DbCfg) (hl : loggingOn cfg = false) :
    ∀ (reqs : List GenReq) (st : SrvState), (runRequests cfg reqs st).txs = st.txs := by
  intro reqs
  induction reqs with
  | nil => intro st; rfl
  | cons r rs ih =>
    intro st
    rw [runRequests, ih]
    exact handleGenerate_txs_of_not_logging cfg st r.prompt r.imageType
      r.sessionKey r.outcome hl

/-- C5: with transaction logging enabled, every generate attempt that
passes validation appends exactly one transaction record — on success
and on failure alike — leaving all earlier records untouched (only the
separate session aggregates are updated); with logging off, no request
ever creates a record, regardless of traffic volume. -/
theorem C5_one_transaction_per_attempt (cfg : DbCfg) (st : SrvState)
    (p : Option String) (t key : String) (o : PipeOutcome) :
    (loggingOn cfg = true → promptOk p = true → validType t = true →
      ∃ tx, (handleGenerate cfg st p t key o).1.txs = st.txs ++ [tx])
    ∧ (loggingOn cfg = false →
        (handleGenerate cfg st p t key o).1.txs = st.txs)
    ∧ (∀ reqs : List GenReq, loggingOn cfg = false →
        (runRequests cfg reqs ⟨[], []⟩).txs = []) := by
  refine ⟨?_, ?_, ?_⟩
  · intro hl hp ht
    cases o with
    | success =>
      exact ⟨⟨jsTrim (p.getD ""), t, true, none⟩,
        by simp [handleGenerate, hp, ht, logTx, hl]⟩
    | failure m =>
      exact ⟨⟨jsTrim (p.getD ""), t, false, some m⟩,
        by simp [handleGenerate, hp, ht, logTx, hl]⟩
  · intro hl
    exact handleGenerate_txs_of_not_logging cfg st p t key o hl
  · intro reqs hl
    exact runRequests_txs_of_not_logging cfg hl reqs ⟨[], []⟩

/-- Witness for C5: one successful attempt with logging on appends one
record to the empty log. -/
theorem C5_one_transaction_per_attempt_witness :
    ∃ tx, (handleGenerate ⟨true, true⟩ ⟨[], []⟩ (some "blue circle") "icon"
      "client" .success).1.txs = (⟨[], []⟩ : SrvState).txs ++ [tx] :=
  (C5_one_transaction_per_attempt ⟨true, true⟩ ⟨[], []⟩ (some "blue circle")
    "icon" "client" .success).1 rfl (by decide) (by decide)

/-- Lookup distributes over list append, preferring the left part. -/
theorem lookupKey_append {V : Type} (l1 l2 : List (String × V)) (k : String) :
    lookupKey (l1 ++ l2) k
      = match lookupKey l1 k with
        | some v => some v
        | none => lookupKey l2 k := by
  induction l1 with
  | nil => rfl
  | cons e es ih =>
    by_cases h : (e.1 == k) = true <;> simp [lookupKey, h, ih]

/-- Overriding a field keeps its key. -/
theorem overrideEntry_fst (upds : RecordObj) (e : String × String) :
    (overrideEntry upds e).1 = e.1 := by
  unfold overrideEntry
  cases lookupKey upds e.1 <;> rfl

/-- Lookup in the overridden base: present fields take the update value
when the update object names them, and absent fields stay absent. -/
theorem lookupKey_map_override (base upds : RecordObj) (f : String) :
    lookupKey (base.map (overrideEntry upds)) f
      = match lookupKey base f with
        | some v => some (match lookupKey upds f with | some w => w | none => v)
        | none => none := by
  induction base with
  | nil => rfl
  | cons e es ih =>
    by_cases h : (e.1 == f) = true
    · have hf : e.1 = f := by simpa using h
      subst hf
      simp only [List.map_cons, lookupKey]
      have h2 : ((overrideEntry upds e).1 == e.1) = true := by
        rw [overrideEntry_fst]; exact h
      rw [if_pos h2, if_pos h]
      unfold overrideEntry
      cases lookupKey upds e.1 <;> rfl
    · have hf : (e.1 == f) = false := by simpa using h
      simp only [List.map_cons, lookupKey]
      have h2 : ((overrideEntry upds e).1 == f) = false := by
        rw [overrideEntry_fst]; exact hf
      rw [if_neg (by simp [h2]), if_neg (by simp [hf])]
      exact ih

/-- Filtering by a predicate that holds on every entry with the looked-up
key does not change the lookup. -/
theorem lookupKey_filter_of (upds : List (String × String))
    (q : String × String → Bool) (f : String)
    (hq : ∀ e, e.1 = f → q e = true) :
    lookupKey (upds.filter q) f = lookupKey upds f := by
  induction upds with
  | nil => rfl
  | cons e es ih =>
    by_cases h : (e.1 == f) = true
    · have hf : e.1 = f := by simpa using h
      simp [List.filter_cons, hq e hf, lookupKey, h]
    · cases hqe : q e <;> simp [List.filter_cons, hqe, lookupKey, h, ih]

/-- Field lookup through a JS object spread: the update object wins,
otherwise the base object answers. -/
theorem spreadObj_lookup (base upds : RecordObj) (f : String) :
    lookupKey (spreadObj base upds) f
      = match lookupKey upds f with
        | some v => some v
        | none => lookupKey base f := by
  rw [spreadObj, lookupKey_append, lookupKey_map_override]
  cases hb : lookupKey base f with
  | some v => cases lookupKey upds f <;> simp
  | none =>
    rw [lookupKey_filter_of upds _ f (fun e he => by rw [he, hb]; rfl)]
    cases lookupKey upds f <;> simp

/-- Setting a key makes it answer the new value. -/
theorem lookupKey_setEntry_self {V : Type} (l : List (String × V))
    (k : String) (v : V) :
    lookupKey (setEntry l k v) k = some v := by
  induction l with
  | nil => simp [setEntry, lookupKey]
  | cons e es ih =>
    by_cases h : (e.1 == k) = true <;> simp [setEntry, h, lookupKey, ih]

/-- Setting a key leaves every other key unchanged. -/
theorem lookupKey_setEntry_ne {V : Type} (l : List (String × V))
    (k k2 : String) (v : V) (h : k2 ≠ k) :
    lookupKey (setEntry l k v) k2 = lookupKey l k2 := by
  have hk : (k == k2) = false := by simp [Ne.symm h]
  induction l with
  | nil => simp [setEntry, lookupKey, hk]
  | cons e es ih =>
    by_cases he : (e.1 == k) = true
    · have hek : e.1 = k := by simpa using he
      simp [setEntry, he, lookupKey, hk, hek]
    · simp only [setEntry, he, if_neg]
      rw [if_neg (by simp [he])]
      by_cases h2 : (e.1 == k2) = true <;> simp [lookupKey, h2, ih]

/-- Counterexample to C10: an updates object that names the id field
does change the stored record's id (the update spread overrides every
named field, id included), refuting the unconditional "id is unchanged"
part of the claim. -/
theorem C10_update_counterexample :
    ((mockUpdate [("A", [("id", "A"), ("x", "1")])] "A" [("id", "B")] "t1").2).toOption.bind
        (fun r => lookupKey r "id") = some "B"
    ∧ lookupKey [("id", "A"), ("x", "1")] "id" = some "A"
    ∧ some "B" ≠ some "A" := by
  decide

/-- C10 as amended: if no record with the id exists, update errors and
the store is untouched; if one exists, the written-back record keeps
every field the updates object does not name (updatedAt excepted, which
is refreshed to the current time), takes the updates object's value for
every field it names, and keeps the id unchanged provided the updates
object does not name id; only the addressed record file changes. -/
theorem C10_update_semantics (s : Store) (id : String) (upds : RecordObj)
    (now : String) :
    (lookupKey s id = none →
      mockUpdate s id upds now
        = (s, .error ("record with id " ++ id ++ " not found")))
    ∧ (∀ ex, lookupKey s id = some ex →
        ∃ r, mockUpdate s id upds now = (setEntry s id r, .ok r)
          ∧ (∀ f, lookupKey upds f = none → f ≠ "updatedAt" →
              lookupKey r f = lookupKey ex f)
          ∧ (∀ f v, lookupKey upds f = some v → f ≠ "updatedAt" →
              lookupKey r f = some v)
          ∧ lookupKey r "updatedAt" = some now
          ∧ (lookupKey upds "id" = none →
              lookupKey r "id" = lookupKey ex "id")
          ∧ lookupKey (setEntry s id r) id = some r
          ∧ (∀ id2, id2 ≠ id →
              lookupKey (setEntry s id r) id2 = lookupKey s id2)) := by
  constructor
  · intro h
    simp [mockUpdate, h]
  · intro ex h
    refine ⟨spreadObj (spreadObj ex upds) [("updatedAt", now)],
      by simp [mockUpdate, h], ?_, ?_, ?_, ?_,
      lookupKey_setEntry_self s id _,
      fun id2 hne2 => lookupKey_setEntry_ne s id id2 _ hne2⟩
    · intro f hf hne
      have hu : lookupKey [("updatedAt", now)] f = none := by
        have : (("updatedAt" : String) == f) = false := by simp [Ne.symm hne]
        simp [lookupKey, this]
      rw [spreadObj_lookup, hu, spreadObj_lookup, hf]
    · intro f v hf hne
      have hu : lookupKey [("updatedAt", now)] f = none := by
        have : (("updatedAt" : String) == f) = false := by simp [Ne.symm hne]
        simp [lookupKey, this]
      rw [spreadObj_lookup, hu, spreadObj_lookup, hf]
    · rw [spreadObj_lookup]
      simp [lookupKey]
    · intro h0
      have hb : (("updatedAt" : String) == "id") = false := by decide
      have hu : lookupKey [("updatedAt", now)] "id" = none := by
        simp [lookupKey, hb]
      rw [spreadObj_lookup, hu, spreadObj_lookup, h0]

/-- Witness for C10 as amended: updating field x of a concrete record
rewrites that field in place. -/
theorem C10_update_semantics_witness :
    ∃ r, mockUpdate [("A", [("id", "A"), ("x", "1")])] "A" [("x", "2")] "t9"
        = (setEntry [("A", [("id", "A"), ("x", "1")])] "A" r, .ok r)
      ∧ lookupKey r "x" = some "2"
      ∧ lookupKey r "id" = some "A" := by
  obtain ⟨r, h1, h2, h3, h4, h5, h6, h7⟩ :=
    (C10_update_semantics [("A", [("id", "A"), ("x", "1")])] "A" [("x", "2")] "t9").2
      [("id", "A"), ("x", "1")] (by decide)
  refine ⟨r, h1, h3 "x" "2" (by decide) (by decide), ?_⟩
  rw [h5 (by decide)]
  decide

/-- Cache well-formedness: insertion-ordered distinct keys, size within
the configured capacity. -/
def cacheWF {V : Type} (max : Nat) (c : List (String × V)) : Prop :=
  (mapKeys c).Nodup ∧ c.length ≤ max

/-- Unfolding lemma: lookup on a cons cell. -/
theorem lookupKey_cons {V : Type} (e : String × V) (es : List (String × V))
    (k : String) :
    lookupKey (e :: es) k = if e.1 == k then some e.2 else lookupKey es k := rfl

/-- Unfolding lemma: keys of a cons cell. -/
theorem mapKeys_cons {V : Type} (e : String × V) (es : List (String × V)) :
    mapKeys (e :: es) = e.1 :: mapKeys es := rfl

/-- Unfolding lemma: setEntry on a cons cell. -/
theorem setEntry_cons {V : Type} (e : String × V) (es : List (String × V))
    (k : String) (v : V) :
    setEntry (e :: es) k v
      = if e.1 == k then (k, v) :: es else e :: setEntry es k v := rfl

/-- Unfolding lemma: delEntry on a cons cell. -/
theorem delEntry_cons {V : Type} (e : String × V) (es : List (String × V))
    (k : String) :
    delEntry (e :: es) k
      = if !(e.1 == k) then e :: delEntry es k else delEntry es k := by
  simp [delEntry, List.filter_cons]

/-- A key answers a lookup exactly when it is among the keys. -/
theorem lookupKey_isSome_iff {V : Type} (l : List (String × V)) (k : String) :
    (lookupKey l k).isSome = true ↔ k ∈ mapKeys l := by
  induction l with
  | nil => simp [lookupKey, mapKeys]
  | cons e es ih =>
    rw [lookupKey_cons, mapKeys_cons]
    by_cases h : (e.1 == k) = true
    · have hf : e.1 = k := by simpa using h
      rw [if_pos h, hf]
      simp
    · have hf : e.1 ≠ k := by simpa using h
      rw [if_neg h, ih]
      constructor
      · exact fun hm => List.mem_cons.mpr (Or.inr hm)
      · intro hm
        rcases List.mem_cons.mp hm with hk | hk
        · exact absurd hk.symm hf
        · exact hk

/-- Setting a key keeps the size, or grows it by one for a new key. -/
theorem setEntry_length {V : Type} (l : List (String × V)) (k : String) (v : V) :
    (setEntry l k v).length
      = if (lookupKey l k).isSome then l.length else l.length + 1 := by
  induction l with
  | nil => simp [setEntry, lookupKey]
  | cons e es ih =>
    by_cases h : (e.1 == k) = true
    · rw [setEntry_cons, if_pos h, lookupKey_cons, if_pos h]
      simp
    · rw [setEntry_cons, if_neg h, lookupKey_cons, if_neg h]
      simp only [List.length_cons, ih]
      cases hs : (lookupKey es k).isSome <;> simp [hs]

/-- Setting a key keeps the key sequence, or appends the new key. -/
theorem setEntry_keys {V : Type} (l : List (String × V)) (k : String) (v : V) :
    mapKeys (setEntry l k v)
      = if (lookupKey l k).isSome then mapKeys l else mapKeys l ++ [k] := by
  induction l with
  | nil => simp [setEntry, lookupKey, mapKeys]
  | cons e es ih =>
    by_cases h : (e.1 == k) = true
    · have hf : e.1 = k := by simpa using h
      rw [setEntry_cons, if_pos h, lookupKey_cons, if_pos h,
        mapKeys_cons, mapKeys_cons, hf]
      simp
    · rw [setEntry_cons, if_neg h, lookupKey_cons, if_neg h,
        mapKeys_cons, mapKeys_cons, ih]
      cases hs : (lookupKey es k).isSome <;> simp [hs]

/-- Deleting a key filters it out of the key sequence. -/
theorem delEntry_keys {V : Type} (l : List (String × V)) (k : String) :
    mapKeys (delEntry l k) = (mapKeys l).filter (fun x => !(x == k)) := by
  induction l with
  | nil => rfl
  | cons e es ih =>
    rw [delEntry_cons, mapKeys_cons, List.filter_cons]
    cases h : (e.1 == k) <;> simp [h, ih, mapKeys_cons]

/-- A duplicate-free list stays duplicate-free after appending one fresh
element. -/
theorem nodup_append_singleton {α : Type} (l : List α) (a : α)
    (h : l.Nodup) (ha : a ∉ l) : (l ++ [a]).Nodup := by
  induction l with
  | nil => simp
  | cons x xs ih =>
    rcases List.nodup_cons.mp h with ⟨hx, hxs⟩
    have ha2 : a ∉ xs := fun hm => ha (List.mem_cons_of_mem x hm)
    have hax : x ≠ a := fun he => ha (he ▸ List.mem_cons_self x xs)
    refine List.nodup_cons.mpr ⟨?_, ih hxs ha2⟩
    intro hmem
    rcases List.mem_append.mp hmem with hm | hm
    · exact hx hm
    · exact hax (List.mem_singleton.mp hm)

/-- Well-formedness is preserved by setting a key, as long as there is
room for a possible new entry. -/
theorem setEntry_wf {V : Type} (max : Nat) (l : List (String × V))
    (k : String) (v : V) (hnd : (mapKeys l).Nodup)
    (hroom : (lookupKey l k).isSome = true → l.length ≤ max)
    (hgrow : (lookupKey l k).isSome = false → l.length + 1 ≤ max) :
    cacheWF max (setEntry l k v) := by
  cases hs : (lookupKey l k).isSome with
  | true =>
    refine ⟨?_, ?_⟩
    · rw [setEntry_keys, if_pos hs]
      exact hnd
    · rw [setEntry_length, if_pos hs]
      exact hroom hs
  | false =>
    have hk : k ∉ mapKeys l := by
      intro hmem
      rw [(lookupKey_isSome_iff l k).mpr hmem] at hs
      cases hs
    refine ⟨?_, ?_⟩
    · rw [setEntry_keys, if_neg (by simp [hs])]
      exact nodup_append_singleton _ k hnd hk
    · rw [setEntry_length, if_neg (by simp [hs])]
      exact hgrow hs

/-- Deleting the first entry of a duplicate-free cache is exactly
dropping its head: the oldest-inserted entry. -/
theorem delEntry_head_of_nodup {V : Type} (e : String × V)
    (es : List (String × V)) (h : (mapKeys (e :: es)).Nodup) :
    delEntry (e :: es) e.1 = es := by
  rw [mapKeys_cons] at h
  have h1 : e.1 ∉ mapKeys es := (List.nodup_cons.mp h).1
  have h2 : delEntry es e.1 = es := by
    unfold delEntry
    refine List.filter_eq_self.mpr (fun a ha => ?_)
    have hk : a.1 ≠ e.1 :=
      fun hk => h1 (hk ▸ List.mem_map_of_mem Prod.fst ha)
    simpa using hk
  rw [delEntry_cons, if_neg (by simp), h2]

/-- updateCache preserves well-formedness when the capacity is at least
one. -/
theorem updateCache_wf {V : Type} (max : Nat) (hmax : 1 ≤ max)
    (c : List (String × V)) (k : String) (v : V) (h : cacheWF max c) :
    cacheWF max (updateCache max c k v) := by
  obtain ⟨hnd, hlen⟩ := h
  unfold updateCache
  by_cases hcap : max ≤ c.length
  · rw [if_pos hcap]
    cases c with
    | nil =>
      have h0 : (1 : Nat) ≤ 0 := by simpa using le_trans hmax hcap
      exact absurd h0 (by decide)
    | cons e es =>
      simp only [List.head?_cons]
      rw [delEntry_head_of_nodup e es hnd]
      have hes : (mapKeys es).Nodup := by
        rw [mapKeys_cons] at hnd
        exact (List.nodup_cons.mp hnd).2
      have hlen2 : es.length + 1 ≤ max := by
        simpa using hlen
      exact setEntry_wf max es k v hes (fun _ => by omega) (fun _ => by omega)
  · rw [if_neg hcap]
    exact setEntry_wf max c k v hnd (fun _ => hlen) (fun _ => by omega)

/-- Every record-store operation preserves cache well-formedness. -/
theorem cacheStep_wf {V : Type} (max : Nat) (hmax : 1 ≤ max)
    (c : List (String × V)) (op : CacheOp V) (h : cacheWF max c) :
    cacheWF max (cacheStep max c op) := by
  cases op with
  | createRec k v => exact updateCache_wf max hmax c k v h
  | readRec k fileRec =>
    simp only [cacheStep, findByIdCache]
    cases hlk : lookupKey c k with
    | some v => exact h
    | none =>
      cases fileRec with
      | some r => exact updateCache_wf max hmax c k r h
      | none => exact h
  | updateRec k fileRec merged =>
    simp only [cacheStep, findByIdCache]
    cases hlk : lookupKey c k with
    | some v => exact updateCache_wf max hmax c k merged h
    | none =>
      cases fileRec with
      | some r =>
        exact updateCache_wf max hmax _ k merged
          (updateCache_wf max hmax c k r h)
      | none => exact h
  | deleteRec k =>
    obtain ⟨hnd, hlen⟩ := h
    simp only [cacheStep]
    refine ⟨?_, ?_⟩
    · rw [delEntry_keys]
      exact hnd.filter _
    · exact le_trans (List.length_filter_le _ c) hlen

/-- Any operation sequence from the empty cache stays well-formed. -/
theorem runCacheOps_wf {V : Type} (max : Nat) (hmax : 1 ≤ max)
    (ops : List (CacheOp V)) : cacheWF max (runCacheOps max ops) := by
  suffices hgen : ∀ (ops : List (CacheOp V)) (c : List (String × V)),
      cacheWF max c → cacheWF max (ops.foldl (cacheStep max) c) by
    exact hgen ops [] ⟨List.nodup_nil, Nat.zero_le max⟩
  intro ops
  induction ops with
  | nil => exact fun c h => h
  | cons op rest ih =>
    intro c h
    exact ih _ (cacheStep_wf max hmax c op h)

/-- C9: with a positive capacity, any sequence of record-store
operations keeps the cache within the configured maximum; an insertion
at capacity evicts exactly the oldest-inserted entry (the head of the
insertion-ordered map) before the new entry is appended; a read of a
cached key returns the cached record and leaves the cache — its eviction
order included — completely unchanged. -/
theorem C9_cache_fifo_bound {V : Type} (max : Nat) (hmax : 1 ≤ max)
    (ops : List (CacheOp V)) :
    (runCacheOps max ops).length ≤ max
    ∧ (∀ (c : List (String × V)) (k : String) (v : V) e es,
        (mapKeys c).Nodup → max ≤ c.length → c = e :: es →
        updateCache max c k v = setEntry es k v)
    ∧ (∀ (c : List (String × V)) (k : String) (v0 : V) (fileRec : Option V),
        lookupKey c k = some v0 →
        findByIdCache max c k fileRec = (c, some v0)) := by
  refine ⟨(runCacheOps_wf max hmax ops).2, ?_, ?_⟩
  · intro c k v e es hnd hcap hc
    subst hc
    unfold updateCache
    rw [if_pos hcap]
    simp only [List.head?_cons]
    rw [delEntry_head_of_nodup e es hnd]
  · intro c k v0 fileRec h
    unfold findByIdCache
    rw [h]

/-- Witness for C9: capacity 2, three creations; the cache holds at most
two entries, and a hit read changes nothing. -/
theorem C9_cache_fifo_bound_witness :
    (runCacheOps 2 [CacheOp.createRec "a" (1 : Nat), .createRec "b" 2,
      .createRec "c" 3]).length ≤ 2
    ∧ findByIdCache 2 [("b", (2 : Nat)), ("c", 3)] "c" none
        = ([("b", 2), ("c", 3)], some 3) :=
  ⟨(C9_cache_fifo_bound 2 (by decide)
      [CacheOp.createRec "a" (1 : Nat), .createRec "b" 2, .createRec "c" 3]).1,
   (C9_cache_fifo_bound 2 (by decide)
      ([] : List (CacheOp Nat))).2.2 [("b", 2), ("c", 3)] "c" 3 none (by decide)⟩

/-- Unfolding lemma: inserting above a cons cell. -/
theorem insertByCreated_cons (x y : ImageInfo) (ys : List ImageInfo) :
    insertByCreated x (y :: ys)
      = if y.created ≤ x.created then x :: y :: ys
        else y :: insertByCreated x ys := rfl

/-- Inserting permutes to a cons. -/
theorem insertByCreated_perm (x : ImageInfo) (l : List ImageInfo) :
    List.Perm (insertByCreated x l) (x :: l) := by
  induction l with
  | nil => exact List.Perm.refl _
  | cons y ys ih =>
    rw [insertByCreated_cons]
    by_cases h : y.created ≤ x.created
    · rw [if_pos h]
    · rw [if_neg h]
      exact (ih.cons y).trans (List.Perm.swap x y ys)

/-- The newest-first sort returns a permutation of its input. -/
theorem sortByCreatedDesc_perm (l : List ImageInfo) :
    List.Perm (sortByCreatedDesc l) l := by
  induction l with
  | nil => exact List.Perm.refl _
  | cons x xs ih => exact (insertByCreated_perm x _).trans (ih.cons x)

/-- Inserting preserves descending order by creation time. -/
theorem insertByCreated_sorted (x : ImageInfo) (l : List ImageInfo)
    (h : List.Sorted (fun a b : ImageInfo => b.created ≤ a.created) l) :
    List.Sorted (fun a b : ImageInfo => b.created ≤ a.created)
      (insertByCreated x l) := by
  induction l with
  | nil => simp [insertByCreated]
  | cons y ys ih =>
    rw [insertByCreated_cons]
    rcases List.sorted_cons.mp h with ⟨hy, hys⟩
    by_cases hxy : y.created ≤ x.created
    · rw [if_pos hxy]
      refine List.sorted_cons.mpr ⟨?_, h⟩
      intro b hb
      rcases List.mem_cons.mp hb with rfl | hb2
      · exact hxy
      · exact le_trans (hy b hb2) hxy
    · rw [if_neg hxy]
      refine List.sorted_cons.mpr ⟨?_, ih hys⟩
      intro b hb
      have hb2 : b ∈ x :: ys := (insertByCreated_perm x ys).subset hb
      rcases List.mem_cons.mp hb2 with rfl | hb3
      · exact le_of_not_le hxy
      · exact hy b hb3

/-- The newest-first sort produces a descending creation order. -/
theorem sortByCreatedDesc_sorted (l : List ImageInfo) :
    List.Sorted (fun a b : ImageInfo => b.created ≤ a.created)
      (sortByCreatedDesc l) := by
  induction l with
  | nil => simp [sortByCreatedDesc]
  | cons x xs ih => exact insertByCreated_sorted x _ ih

/-- Saving under a fresh name appends the entry. -/
theorem saveEntry_cons (x : DirEntry) (xs : List DirEntry) (e : DirEntry) :
    saveEntry (x :: xs) e
      = if x.name == e.name then e :: xs else x :: saveEntry xs e := rfl

/-- Saving a file whose name is not in the directory appends it. -/
theorem saveEntry_fresh (dir : List DirEntry) (e : DirEntry)
    (h : e.name ∉ dir.map DirEntry.name) : saveEntry dir e = dir ++ [e] := by
  induction dir with
  | nil => rfl
  | cons x xs ih =>
    rw [List.map_cons] at h
    have h1 := List.mem_cons.not.mp h
    have hne : ¬(e.name = x.name) := fun he => h1 (Or.inl he)
    have hnm : e.name ∉ xs.map DirEntry.name := fun hm => h1 (Or.inr hm)
    have hxne : (x.name == e.name) = false := by
      simp only [beq_eq_false_iff_ne, ne_eq]
      exact fun he => hne he.symm
    rw [saveEntry_cons, if_neg (by simp [hxne]), ih hnm]
    rfl

/-- Number of image files in the directory. -/
def imageCount (dir : List DirEntry) : Nat :=
  (dir.filter (fun e => isImageFilename e.name)).length

/-- Saving a batch of distinct, image-named files grows the image count
by exactly the batch size. -/
theorem foldl_save_imageCount (gens : List DirEntry) :
    ∀ start : List DirEntry,
      (gens.map DirEntry.name).Nodup →
      (∀ e ∈ gens, isImageFilename e.name = true) →
      (∀ e ∈ gens, e.name ∉ start.map DirEntry.name) →
      imageCount (gens.foldl saveEntry start) = imageCount start + gens.length := by
  induction gens with
  | nil =>
    intro start _ _ _
    simp [List.foldl]
  | cons g gs ih =>
    intro start hnd himg hfresh
    rw [List.foldl_cons,
      saveEntry_fresh start g (hfresh g (List.mem_cons_self g gs))]
    rw [List.map_cons] at hnd
    rcases List.nodup_cons.mp hnd with ⟨hgn, hgs⟩
    have h2 : ∀ e ∈ gs, isImageFilename e.name = true :=
      fun e he => himg e (List.mem_cons_of_mem g he)
    have h3 : ∀ e ∈ gs, e.name ∉ (start ++ [g]).map DirEntry.name := by
      intro e he hmem
      rw [List.map_append] at hmem
      rcases List.mem_append.mp hmem with hm | hm
      · exact hfresh e (List.mem_cons_of_mem g he) hm
      · have hEq : e.name = g.name := by simpa using hm
        exact hgn (hEq ▸ List.mem_map_of_mem DirEntry.name he)
    rw [ih (start ++ [g]) hgs h2 h3]
    have h4 : imageCount (start ++ [g]) = imageCount start + 1 := by
      unfold imageCount
      rw [List.filter_append]
      simp [himg g (List.mem_cons_self g gs)]
    rw [h4]
    simp only [List.length_cons]
    omega

/-- C8: listing returns exactly the image-extension entries of the
processed directory, each with its stat metadata, sorted newest first by
creation time; a directory produced by N saves of distinct image-named
files (beside the original subdirectory entry, which carries no image
extension and is filtered out) lists exactly N entries. -/
theorem C8_list_artifacts (dir : List DirEntry) :
    List.Perm (listGeneratedImages dir)
      ((dir.filter (fun e => isImageFilename e.name)).map toImageInfo)
    ∧ List.Sorted (fun a b : ImageInfo => b.created ≤ a.created)
        (listGeneratedImages dir)
    ∧ (∀ gens : List DirEntry, (gens.map DirEntry.name).Nodup →
        (∀ e ∈ gens, isImageFilename e.name = true) →
        (listGeneratedImages (gens.foldl saveEntry [originalSubdirEntry])).length
          = gens.length) := by
  refine ⟨sortByCreatedDesc_perm _, sortByCreatedDesc_sorted _, ?_⟩
  intro gens hnd himg
  have hfresh : ∀ e ∈ gens, e.name ∉ [originalSubdirEntry].map DirEntry.name := by
    intro e he hm
    have hEq : e.name = "original" := by simpa [originalSubdirEntry] using hm
    have himg2 := himg e he
    rw [hEq] at himg2
    exact absurd himg2 (by decide)
  have hc := foldl_save_imageCount gens [originalSubdirEntry] hnd himg hfresh
  have hlen : (listGeneratedImages (gens.foldl saveEntry [originalSubdirEntry])).length
      = imageCount (gens.foldl saveEntry [originalSubdirEntry]) := by
    unfold listGeneratedImages imageCount
    rw [(sortByCreatedDesc_perm _).length_eq, List.length_map]
  rw [hlen, hc]
  have h0 : imageCount [originalSubdirEntry] = 0 := by decide
  rw [h0]
  omega

/-- Witness for C8: two saved artifacts beside the original subdirectory
list as exactly two entries. -/
theorem C8_list_artifacts_witness :
    (listGeneratedImages
      ([⟨"logo_a_5.png", 3, 5, 5⟩, ⟨"icon_b_9.png", 4, 9, 9⟩].foldl
        saveEntry [originalSubdirEntry])).length = 2 :=
  (C8_list_artifacts []).2.2
    [⟨"logo_a_5.png", 3, 5, 5⟩, ⟨"icon_b_9.png", 4, 9, 9⟩]
    (by decide) (by decide)

end LogoGen
